import Mathlib

/-!
Shallow embedding of `stepwiseSelection.py` (forward/backward stepwise
regression selection).  Model fitting is delegated by the source to
statsmodels; we embed it as an abstract oracle assigning to every column
subset a `FitResult` (per-column p-values and scalar fit statistics), and
translate the selection control flow faithfully from the source.
-/

namespace StepwiseSelection

/-- Fit statistics returned by one model fit (statsmodels result object,
as read by the selectors: `pvalues`, `aic`, `bic`, `rsquared`,
`rsquared_adj`).  P-values are indexed by column name. -/
structure FitResult where
  pvalues : String → ℚ
  aic : ℚ
  bic : ℚ
  rsquared : ℚ
  rsquared_adj : ℚ

/-- The external regression engine: an OLS fitter and a logit fitter, each a
pure function of the fitted column subset (the response vector and data are
fixed throughout one selection call, so they are baked into the oracle). -/
structure Oracle where
  ols : List String → FitResult
  logit : List String → FitResult

/-- The inner `regressor` closure of both selectors (source lines 127-136 and
240-249): `linear` fits OLS, `logistic` fits logit, anything else prints a
warning and fits OLS. -/
def regressor (O : Oracle) (model_type : String) (cols : List String) : FitResult :=
  if model_type = "linear" then O.ols cols
  else if model_type = "logistic" then O.logit cols
  else O.ols cols

/-- A raw input column is numeric or text (pandas dtype object). -/
inductive ColData where
  | num (vals : List ℤ)
  | txt (vals : List String)
deriving DecidableEq

/-- A raw predictor table: ordered named columns. -/
abbrev RawFrame := List (String × ColData)

/-- A numeric design matrix: ordered named numeric columns. -/
abbrev NumFrame := List (String × List ℤ)

/-- Number of rows of a raw frame (length of its first column). -/
def numRows (X : RawFrame) : Nat :=
  match X with
  | [] => 0
  | (_, ColData.num vs) :: _ => vs.length
  | (_, ColData.txt vs) :: _ => vs.length

/-- Lexicographic comparison of character lists by code point (the order in
which pandas sorts the levels of an object column). -/
def lexLe : List Char → List Char → Bool
  | [], _ => true
  | _ :: _, [] => false
  | x :: xs, y :: ys =>
    if x.toNat < y.toNat then true
    else if x.toNat = y.toNat then lexLe xs ys
    else false

/-- Code-point lexicographic order on strings. -/
def strLe (a b : String) : Bool := lexLe a.data b.data

/-- Insert a string into a sorted list (ascending, lexicographic). -/
def insertStr (v : String) : List String → List String
  | [] => [v]
  | h :: t => if strLe v h then v :: h :: t else h :: insertStr v t

/-- Sort a list of strings ascending (pandas sorts the levels of an object
column before generating dummies). -/
def sortStrs (l : List String) : List String := l.foldr insertStr []

/-- First-seen deduplication of a list of strings. -/
def dedup (l : List String) : List String :=
  l.foldl (fun acc v => if v ∈ acc then acc else acc ++ [v]) []

/-- The distinct levels of a text column, sorted ascending, as
`pd.get_dummies` enumerates them. -/
def levels (vs : List String) : List String := sortStrs (dedup vs)

/-- 0/1 indicator column for one level of a text column. -/
def indicator (vs : List String) (lvl : String) : List ℤ :=
  vs.map (fun v => if v = lvl then 1 else 0)

/-- Dummy columns generated for one text column `name` with values `vs`:
one indicator per level, named `name_level`; with `dropFirst` the first
level is omitted (`pd.get_dummies(..., drop_first=True)`). -/
def dummyCols (name : String) (vs : List String) (dropFirst : Bool) : NumFrame :=
  (if dropFirst then (levels vs).drop 1 else levels vs).map
    (fun l => (name ++ "_" ++ l, indicator vs l))

/-- The numeric columns of a raw frame, unchanged and in order. -/
def numericCols (X : RawFrame) : NumFrame :=
  X.filterMap (fun c => match c.2 with
    | ColData.num vs => some (c.1, vs)
    | ColData.txt _ => none)

/-- `pd.get_dummies` on a mixed frame: non-object columns first in original
order, then the dummy expansions of each text column in original order. -/
def get_dummies (X : RawFrame) (dropFirst : Bool) : NumFrame :=
  numericCols X ++
    X.flatMap (fun c => match c.2 with
      | ColData.num _ => []
      | ColData.txt vs => dummyCols c.1 vs dropFirst)

/-- `__varcharProcessing__` (source lines 99-120): encode text columns per
policy (`drop` removes them, `dummy` expands all levels, `dummy_dropfirst`
and every unrecognized policy expand dropping the first level), then append
an `intercept` column of constant 1 and move it to the front. -/
def varcharProcessing (X : RawFrame) (charvar_process : String) : NumFrame :=
  let enc :=
    if charvar_process = "drop" then numericCols X
    else if charvar_process = "dummy" then get_dummies X false
    else get_dummies X true
  ("intercept", List.replicate (numRows X) 1) :: enc

/-- The formal parameter name of the encoder as declared in the source
(line 99: `def __varcharProcessing__(X, charvar_process = ...)`). -/
def encoderParamName : String := "charvar_process"

/-- The keyword actually used at the encoder call sites inside
`forwardSelection` and `backwardSelection` (lines 56 and 96:
`__varcharProcessing__(X, varchar_process = varchar_process)`). -/
def encoderCallKeyword : String := "varchar_process"

/-- Python keyword-argument binding for the encoder's single optional
parameter: the call binds the passed value only when the keyword matches the
declared parameter name; otherwise the call raises `TypeError`. -/
def bindEncoderPolicy (kw : String) (value : String) : Except String String :=
  if kw = encoderParamName then Except.ok value
  else Except.error ("TypeError: __varcharProcessing__() got an unexpected keyword argument " ++ kw)

/-- One entry of the accumulated iteration log, abstracting the text blocks
the source concatenates into `iterations_log`: an "Entered : v" line, a model
summary block (recorded by the fitted column set), an "Eliminated : v" block,
or a "Regained : v" block.  Console `print` diagnostics are not part of the
returned log and are not modelled. -/
inductive LogEvent where
  | entered (v : String)
  | summary (cols : List String)
  | eliminated (v : String)
  | regained (v : String)
deriving DecidableEq

/-- State of the forward-selection loop (source lines 138-215): the selected
columns, the remaining candidates, the stored criterion value and the log. -/
structure FwdState where
  selected : List String
  others : List String
  criteria : ℚ
  log : List LogEvent
deriving DecidableEq

/-- Initial `criteria` (source lines 144-151, re-evaluated at 218-225).  In
the fall-through case the Python variable stays unassigned and is never read;
we return 0 there, which the loop likewise never consults. -/
def initCriteria (ec mt : String) (f : FitResult) : ℚ :=
  if ec = "aic" then f.aic
  else if ec = "bic" then f.bic
  else if ec = "r2" ∧ mt = "linear" then f.rsquared
  else if ec = "adjr2" ∧ mt = "linear" then f.rsquared_adj
  else 0

/-- The per-round candidate p-values (source lines 155-158): for each
remaining candidate `j`, fit selected+[j] and read off `j`'s p-value. -/
def candidatePvals (O : Oracle) (mt : String) (s : FwdState) : List (String × ℚ) :=
  s.others.map (fun j => (j, (regressor O mt (s.selected ++ [j])).pvalues j))

/-- Sort the candidates by ascending p-value, keep those with p-value ≤ sl,
and take the first (source lines 159-161 and the `[0]` lookups). -/
def bestCandidate (O : Oracle) (mt : String) (sl : ℚ) (s : FwdState) : Option (String × ℚ) :=
  (((candidatePvals O mt s).insertionSort (fun a b => a.2 ≤ b.2)).filter
    (fun x => decide (x.2 ≤ sl))).head?

/-- The forward-selection loop (source lines 154-215), with fuel standing for
`range(X.shape[1])`.  Each round: if no candidate passes the significance
filter, stop (nothing is appended to the log); otherwise log the entry and
the candidate model's summary, then apply the criterion gate: `aic`/`bic`
accept on a strict decrease, `r2`/`adjr2` (linear model only) on a strict
increase, any other criterion accepts unconditionally; a rejected gate stops
the loop without adding the candidate (the log keeps the entry block). -/
def fwdLoop (O : Oracle) (mt ec : String) (sl : ℚ) : Nat → FwdState → FwdState
  | 0, s => s
  | fuel + 1, s =>
    match bestCandidate O mt sl s with
    | none => s
    | some best =>
      let model := regressor O mt (s.selected ++ [best.1])
      let slog := s.log ++ [LogEvent.entered best.1, LogEvent.summary (s.selected ++ [best.1])]
      if ec = "aic" then
        if model.aic < s.criteria then
          fwdLoop O mt ec sl fuel
            { selected := s.selected ++ [best.1], others := s.others.erase best.1,
              criteria := model.aic, log := slog }
        else { s with log := slog }
      else if ec = "bic" then
        if model.bic < s.criteria then
          fwdLoop O mt ec sl fuel
            { selected := s.selected ++ [best.1], others := s.others.erase best.1,
              criteria := model.bic, log := slog }
        else { s with log := slog }
      else if ec = "r2" ∧ mt = "linear" then
        if model.rsquared > s.criteria then
          fwdLoop O mt ec sl fuel
            { selected := s.selected ++ [best.1], others := s.others.erase best.1,
              criteria := model.rsquared, log := slog }
        else { s with log := slog }
      else if ec = "adjr2" ∧ mt = "linear" then
        if model.rsquared_adj > s.criteria then
          fwdLoop O mt ec sl fuel
            { selected := s.selected ++ [best.1], others := s.others.erase best.1,
              criteria := model.rsquared_adj, log := slog }
        else { s with log := slog }
      else
        fwdLoop O mt ec sl fuel
          { selected := s.selected ++ [best.1], others := s.others.erase best.1,
            criteria := s.criteria, log := slog }

/-- Initial state of the forward loop (source lines 138-151): selected =
{intercept}, candidates = all other columns, criterion value from the
intercept-only fit. -/
def fwdInit (O : Oracle) (cols : List String) (mt ec : String) : FwdState :=
  { selected := ["intercept"], others := cols.erase "intercept",
    criteria := initCriteria ec mt (regressor O mt ["intercept"]), log := [] }

/-- `__forwardSelectionRaw__` (source lines 122-232): start from
{intercept}, fit the intercept-only model for the initial criterion value,
run the loop, return the selected columns and the log.  The trailing refit
at lines 217-231 only prints and does not change the returned pair. -/
def forwardSelectionRaw (O : Oracle) (cols : List String) (mt ec : String) (sl : ℚ) :
    List String × List LogEvent :=
  let s := fwdLoop O mt ec sl cols.length (fwdInit O cols mt ec)
  (s.selected, s.log)

/-- `forwardSelection` (source lines 19-57): the public wrapper first calls
the encoder with keyword `varchar_process`, which must bind to the encoder's
declared parameter; then runs the raw forward selector on the encoded
columns. -/
def forwardSelection (O : Oracle) (X : RawFrame) (mt ec vp : String) (sl : ℚ) :
    Except String (List String × List LogEvent) :=
  (bindEncoderPolicy encoderCallKeyword vp).bind (fun policy =>
    Except.ok (forwardSelectionRaw O ((varcharProcessing X policy).map Prod.fst) mt ec sl))

/-- State of the backward-selection loop (source lines 234-310): `xcols` is
the current design matrix's column list (`X.columns`), `modelCols` the column
set of the current accepted `model`, `cols` the Python variable `cols`
(snapshotted from `X.columns` at line 296, i.e. before any deletion of that
round), `lastElim` the variable `last_eleminated`, plus log and a done flag
standing for `break`. -/
structure BwdState where
  xcols : List String
  modelCols : List String
  cols : List String
  lastElim : String
  log : List LogEvent
  done : Bool
deriving DecidableEq

/-- `max(model.pvalues)` over the fitted columns (source line 295).  Python's
`max` raises on an empty sequence; a fit of an empty design matrix would
already have failed, so the empty case (returning 0) is unreachable in real
runs. -/
def maxPvalOf (f : FitResult) (cs : List String) : ℚ :=
  match cs with
  | [] => 0
  | h :: t => t.foldl (fun m j => max m (f.pvalues j)) (f.pvalues h)

/-- Source lines 295-306: snapshot `cols := X.columns`, then if the maximum
p-value exceeds `sl` delete every column attaining it (the inner `for j in
cols` loop deletes each tie and overwrites `last_eleminated`), else break. -/
def bwdEliminate (f : FitResult) (sl : ℚ) (s : BwdState) : BwdState :=
  if maxPvalOf f s.xcols > sl then
    { s with cols := s.xcols,
             xcols := s.xcols.filter (fun j => decide (¬ f.pvalues j = maxPvalOf f s.xcols)),
             lastElim := (s.xcols.filter
               (fun j => decide (f.pvalues j = maxPvalOf f s.xcols))).foldl
                 (fun _ j => j) s.lastElim,
             log := s.log ++ (s.xcols.filter
               (fun j => decide (f.pvalues j = maxPvalOf f s.xcols))).map
                 (fun j => LogEvent.eliminated j) }
  else { s with cols := s.xcols, done := true }

/-- One round of the backward loop (source lines 250-306), `i` being the loop
index.  Round 0 fits and logs the full model.  A later round first applies
the criterion gate: refit the reduced matrix and compare to the previous
accepted model (`aic`/`bic`: stop when the old value is strictly lower;
`adjr2`/`r2`, linear model only: stop when the old value is strictly higher);
on stop, the new model's summary and a "Regained" note are logged and the
loop breaks with `cols` unchanged.  An accepted round logs the new model's
summary and performs the elimination step. -/
def bwdRound (O : Oracle) (mt ec : String) (sl : ℚ) (i : Nat) (s : BwdState) : BwdState :=
  if s.done then s
  else if i = 0 then
    bwdEliminate (regressor O mt s.xcols) sl
      { s with modelCols := s.xcols, log := s.log ++ [LogEvent.summary s.xcols] }
  else
    if ec = "aic" then
      if (regressor O mt s.modelCols).aic < (regressor O mt s.xcols).aic then
        { s with done := true,
                 log := s.log ++ [LogEvent.summary s.xcols, LogEvent.regained s.lastElim] }
      else
        bwdEliminate (regressor O mt s.xcols) sl
          { s with modelCols := s.xcols, log := s.log ++ [LogEvent.summary s.xcols] }
    else if ec = "bic" then
      if (regressor O mt s.modelCols).bic < (regressor O mt s.xcols).bic then
        { s with done := true,
                 log := s.log ++ [LogEvent.summary s.xcols, LogEvent.regained s.lastElim] }
      else
        bwdEliminate (regressor O mt s.xcols) sl
          { s with modelCols := s.xcols, log := s.log ++ [LogEvent.summary s.xcols] }
    else if ec = "adjr2" ∧ mt = "linear" then
      if (regressor O mt s.modelCols).rsquared_adj > (regressor O mt s.xcols).rsquared_adj then
        { s with done := true,
                 log := s.log ++ [LogEvent.summary s.xcols, LogEvent.regained s.lastElim] }
      else
        bwdEliminate (regressor O mt s.xcols) sl
          { s with modelCols := s.xcols, log := s.log ++ [LogEvent.summary s.xcols] }
    else if ec = "r2" ∧ mt = "linear" then
      if (regressor O mt s.modelCols).rsquared > (regressor O mt s.xcols).rsquared then
        { s with done := true,
                 log := s.log ++ [LogEvent.summary s.xcols, LogEvent.regained s.lastElim] }
      else
        bwdEliminate (regressor O mt s.xcols) sl
          { s with modelCols := s.xcols, log := s.log ++ [LogEvent.summary s.xcols] }
    else
      bwdEliminate (regressor O mt s.xcols) sl
        { s with modelCols := s.xcols, log := s.log ++ [LogEvent.summary s.xcols] }

/-- The backward loop: `for i in range(X.shape[1])`, with fuel for the
remaining iterations; once `done` is set, remaining iterations are no-ops. -/
def bwdLoop (O : Oracle) (mt ec : String) (sl : ℚ) : Nat → Nat → BwdState → BwdState
  | 0, _, s => s
  | fuel + 1, i, s => bwdLoop O mt ec sl fuel (i + 1) (bwdRound O mt ec sl i s)

/-- Initial state of the backward loop (source lines 236-238): full column
list, empty log, `last_eleminated` empty. -/
def bwdInit (cols0 : List String) : BwdState :=
  { xcols := cols0, modelCols := cols0, cols := cols0, lastElim := "", log := [], done := false }

/-- `__backwardSelectionRaw__` (source lines 234-310): run the loop from the
full column list, then append the final summary of the current accepted
model (line 309) and return `cols` with the log. -/
def backwardSelectionRaw (O : Oracle) (cols0 : List String) (mt ec : String) (sl : ℚ) :
    List String × List LogEvent :=
  let s := bwdLoop O mt ec sl cols0.length 0 (bwdInit cols0)
  (s.cols, s.log ++ [LogEvent.summary s.modelCols])

/-- `backwardSelection` (source lines 59-97): the public wrapper calls the
encoder with keyword `varchar_process`, then runs the raw backward selector
on the encoded columns. -/
def backwardSelection (O : Oracle) (X : RawFrame) (mt ec vp : String) (sl : ℚ) :
    Except String (List String × List LogEvent) :=
  (bindEncoderPolicy encoderCallKeyword vp).bind (fun policy =>
    Except.ok (backwardSelectionRaw O ((varcharProcessing X policy).map Prod.fst) mt ec sl))

/-- The forward criterion gate rejects candidate `c` at state `s` (the STOP
side of source lines 168-207): for `aic`/`bic` the refit's value fails to
decrease strictly, for `r2`/`adjr2` under the linear model it fails to
increase strictly. -/
def gateRejects (O : Oracle) (mt ec : String) (s : FwdState) (c : String) : Prop :=
  (ec = "aic" ∧ ¬ (regressor O mt (s.selected ++ [c])).aic < s.criteria) ∨
  (ec = "bic" ∧ ¬ (regressor O mt (s.selected ++ [c])).bic < s.criteria) ∨
  (ec = "r2" ∧ mt = "linear" ∧ ¬ (regressor O mt (s.selected ++ [c])).rsquared > s.criteria) ∨
  (ec = "adjr2" ∧ mt = "linear" ∧
    ¬ (regressor O mt (s.selected ++ [c])).rsquared_adj > s.criteria)

/-! Concrete fit oracles used as explicit inputs in counterexamples and
witnesses.  Each assigns small rational statistics to the column subsets the
corresponding run visits. -/

/-- Fit oracle on columns {intercept, a}: in the full fit the intercept has
the largest p-value (900) while `a` is significant (10). -/
def fitInterceptWorst (cols : List String) : FitResult :=
  { pvalues := fun j => if cols = ["intercept", "a"] ∧ j = "intercept" then 900 else 10,
    aic := 0, bic := 0, rsquared := 0, rsquared_adj := 0 }

def oracleInterceptWorst : Oracle := ⟨fitInterceptWorst, fitInterceptWorst⟩

/-- Fit oracle on columns {intercept, a, b}: in the full fit `a` and `b` are
tied at p-value 900 while the intercept is significant. -/
def fitTied (cols : List String) : FitResult :=
  { pvalues := fun j =>
      if cols = ["intercept", "a", "b"] ∧ (j = "a" ∨ j = "b") then 900 else 10,
    aic := 0, bic := 0, rsquared := 0, rsquared_adj := 0 }

def oracleTied : Oracle := ⟨fitTied, fitTied⟩

/-- Fit oracle on columns {intercept, a}: the full fit has AIC 10 with `a`
insignificant (p-value 900); the intercept-only refit has AIC 20, i.e. the
elimination of `a` makes the fit worse. -/
def fitRegain (cols : List String) : FitResult :=
  { pvalues := fun j => if cols = ["intercept", "a"] ∧ j = "a" then 900 else 10,
    aic := if cols = ["intercept", "a"] then 10 else 20,
    bic := 0, rsquared := 0, rsquared_adj := 0 }

def oracleRegain : Oracle := ⟨fitRegain, fitRegain⟩

/-- Fit oracle where every p-value exceeds any reasonable significance
level. -/
def fitAllInsignificant (_ : List String) : FitResult :=
  { pvalues := fun _ => 900, aic := 0, bic := 0, rsquared := 0, rsquared_adj := 0 }

def oracleAllInsignificant : Oracle := ⟨fitAllInsignificant, fitAllInsignificant⟩

/-- Fit oracle on columns {intercept, a, b}: all candidates significant
(`a` at 10, `b` at 20) but R² drops from 500 (intercept only) to 400
when `a` enters, so the r2 gate under the linear model rejects `a`. -/
def fitR2Gate (cols : List String) : FitResult :=
  { pvalues := fun j => if j = "a" then 10 else 20,
    aic := 0, bic := 0,
    rsquared := if cols = ["intercept"] then 500 else 400,
    rsquared_adj := 0 }

def oracleR2Gate : Oracle := ⟨fitR2Gate, fitR2Gate⟩

/-- Fit oracle where every candidate is significant (p-value 10) but AIC is
constant at 10, so the aic gate never sees a strict decrease and rejects the
first candidate. -/
def fitAicFlat (_ : List String) : FitResult :=
  { pvalues := fun _ => 10, aic := 10, bic := 0, rsquared := 0, rsquared_adj := 0 }

def oracleAicFlat : Oracle := ⟨fitAicFlat, fitAicFlat⟩

/-- The example raw frame of the spec's encoder scenario: two numeric
columns and one text column with two levels. -/
def exampleFrame : RawFrame :=
  [("a", ColData.num [5, 7, 9]), ("b", ColData.num [1, 2, 3]),
   ("c", ColData.txt ["u", "v", "u"])]

/-- Invariant of the backward loop at loop index `i`, used for the regain
analysis: while the loop is running the log holds no regain note; any regain
note names a member of the snapshot `cols` that the function returns; and
from round 1 on, `last_eleminated` lies in that snapshot. -/
@[reducible] def BwdInv (i : Nat) (s : BwdState) : Prop :=
  (s.done = false → ∀ v, LogEvent.regained v ∉ s.log) ∧
  (∀ v, LogEvent.regained v ∈ s.log → v ∈ s.cols) ∧
  (s.done = false → i ≠ 0 → s.lastElim ∈ s.cols)

/-- No criterion gate applies for this (criterion, model type) pair: the
criterion is neither `aic` nor `bic`, and the `r2`/`adjr2` branches are shut
because their `model_type == "linear"` test fails (which is exactly what
happens for `r2`/`adjr2` when the model type string is unrecognized). -/
def gateFree (ec mt : String) : Prop :=
  ec ≠ "aic" ∧ ec ≠ "bic" ∧ ¬ (ec = "r2" ∧ mt = "linear") ∧ ¬ (ec = "adjr2" ∧ mt = "linear")

/-- Is a log entry an elimination note? -/
def isElimEvent : LogEvent → Bool
  | LogEvent.eliminated _ => true
  | _ => false

/-- Number of elimination notes in a log; each one corresponds to exactly
one column deleted from the design matrix. -/
def countElim (l : List LogEvent) : Nat := l.countP isElimEvent

/-! Helper lemmas about the forward loop. -/

/-- Columns already selected stay selected: the loop only appends. -/
lemma fwd_selected_mono (O : Oracle) (mt ec : String) (sl : ℚ) :
    ∀ (fuel : Nat) (s : FwdState) (v : String), v ∈ s.selected →
      v ∈ (fwdLoop O mt ec sl fuel s).selected := by
  intro fuel
  induction fuel with
  | zero => intro s v h; exact h
  | succ n ih =>
    intro s v h
    rw [fwdLoop]
    cases hbc : bestCandidate O mt sl s with
    | none => exact h
    | some b =>
      simp only
      repeat' split
      all_goals first
        | exact h
        | (apply ih; simp [h])

/-- If the gate rejects the best candidate, one round of the loop stops,
returning the state with only the entry block appended to the log. -/
lemma fwdLoop_gate_reject (O : Oracle) (mt ec : String) (sl : ℚ) (fuel : Nat) (s : FwdState)
    (b : String × ℚ) (hbc : bestCandidate O mt sl s = some b)
    (hrej : gateRejects O mt ec s b.1) :
    fwdLoop O mt ec sl (fuel + 1) s =
      { s with log := s.log ++ [LogEvent.entered b.1, LogEvent.summary (s.selected ++ [b.1])] } := by
  rw [fwdLoop, hbc]
  rcases hrej with ⟨he, hg⟩ | ⟨he, hg⟩ | ⟨he, hm, hg⟩ | ⟨he, hm, hg⟩
  · subst he; simp [hg]
  · subst he; simp [hg]
  · subst he; subst hm; simp [hg]
  · subst he; subst hm; simp [hg]

/-- The head of a list is a member. -/
lemma mem_of_head_some {α : Type} {l : List α} {x : α} (h : l.head? = some x) : x ∈ l := by
  cases l with
  | nil => cases h
  | cons a t =>
    simp only [List.head?_cons, Option.some.injEq] at h
    subst h
    exact List.mem_cons_self _ _

/-- What the per-round candidate choice guarantees (source lines 155-163):
the chosen candidate is a remaining column, its recorded p-value is the one
from the fit of selected+[candidate], and that p-value is ≤ sl. -/
lemma bestCandidate_spec (O : Oracle) (mt : String) (sl : ℚ) (s : FwdState) (b : String × ℚ)
    (h : bestCandidate O mt sl s = some b) :
    b.2 ≤ sl ∧ b.1 ∈ s.others ∧
      b.2 = (regressor O mt (s.selected ++ [b.1])).pvalues b.1 := by
  have hb := mem_of_head_some h
  rw [List.mem_filter] at hb
  obtain ⟨hsort, hsl⟩ := hb
  rw [List.mem_insertionSort] at hsort
  simp only [candidatePvals, List.mem_map] at hsort
  obtain ⟨j, hj, hbj⟩ := hsort
  refine ⟨by simpa using hsl, ?_, ?_⟩
  · rw [← hbj]; exact hj
  · rw [← hbj]

/-- Every column the loop ever selects was either already selected or had,
at the round it entered, a p-value ≤ sl in the fit of
(then-selected ++ [column]). -/
lemma fwd_selected_sound (O : Oracle) (mt ec : String) (sl : ℚ) :
    ∀ (fuel : Nat) (s : FwdState) (v : String), v ∈ (fwdLoop O mt ec sl fuel s).selected →
      v ∈ s.selected ∨ ∃ S : List String, (regressor O mt (S ++ [v])).pvalues v ≤ sl := by
  intro fuel
  induction fuel with
  | zero => intro s v h; exact Or.inl h
  | succ n ih =>
    intro s v h
    rw [fwdLoop] at h
    revert h
    cases hbc : bestCandidate O mt sl s with
    | none => exact fun h => Or.inl h
    | some b =>
      have hspec := bestCandidate_spec O mt sl s b hbc
      intro h
      have hstep : v ∈ s.selected ++ [b.1] →
          v ∈ s.selected ∨ ∃ S : List String, (regressor O mt (S ++ [v])).pvalues v ≤ sl := by
        intro hv
        rcases List.mem_append.mp hv with hv | hv
        · exact Or.inl hv
        · have hv1 : v = b.1 := by simpa using hv
          subst hv1
          exact Or.inr ⟨s.selected, by rw [← hspec.2.2]; exact hspec.1⟩
      revert h
      simp only
      repeat' split
      all_goals
        intro h
        first
          | exact Or.inl h
          | (rcases ih _ _ h with hv | hv
             · exact hstep hv
             · exact Or.inr hv)

/-- With the `aic` gate the stored criterion value never increases. -/
lemma fwd_criteria_aic (O : Oracle) (mt : String) (sl : ℚ) :
    ∀ (fuel : Nat) (s : FwdState), (fwdLoop O mt "aic" sl fuel s).criteria ≤ s.criteria := by
  intro fuel
  induction fuel with
  | zero => intro s; exact le_refl _
  | succ n ih =>
    intro s
    rw [fwdLoop]
    cases hbc : bestCandidate O mt sl s with
    | none => exact le_refl _
    | some b =>
      simp only
      repeat' split
      all_goals first
        | exact le_refl _
        | exact le_trans (ih _) (le_of_lt (by assumption))
        | exact le_trans (le_of_lt (by assumption)) (ih _)
        | simp_all

/-- With the `bic` gate the stored criterion value never increases. -/
lemma fwd_criteria_bic (O : Oracle) (mt : String) (sl : ℚ) :
    ∀ (fuel : Nat) (s : FwdState), (fwdLoop O mt "bic" sl fuel s).criteria ≤ s.criteria := by
  intro fuel
  induction fuel with
  | zero => intro s; exact le_refl _
  | succ n ih =>
    intro s
    rw [fwdLoop]
    cases hbc : bestCandidate O mt sl s with
    | none => exact le_refl _
    | some b =>
      simp only
      repeat' split
      all_goals first
        | exact le_refl _
        | exact le_trans (ih _) (le_of_lt (by assumption))
        | exact le_trans (le_of_lt (by assumption)) (ih _)
        | simp_all

/-- With the `r2` gate under the linear model the stored criterion value
never decreases. -/
lemma fwd_criteria_r2 (O : Oracle) (sl : ℚ) :
    ∀ (fuel : Nat) (s : FwdState), s.criteria ≤ (fwdLoop O "linear" "r2" sl fuel s).criteria := by
  intro fuel
  induction fuel with
  | zero => intro s; exact le_refl _
  | succ n ih =>
    intro s
    rw [fwdLoop]
    cases hbc : bestCandidate O "linear" sl s with
    | none => exact le_refl _
    | some b =>
      simp only
      repeat' split
      all_goals first
        | exact le_refl _
        | exact le_trans (ih _) (le_of_lt (by assumption))
        | exact le_trans (le_of_lt (by assumption)) (ih _)
        | simp_all

/-- With the `adjr2` gate under the linear model the stored criterion value
never decreases. -/
lemma fwd_criteria_adjr2 (O : Oracle) (sl : ℚ) :
    ∀ (fuel : Nat) (s : FwdState),
      s.criteria ≤ (fwdLoop O "linear" "adjr2" sl fuel s).criteria := by
  intro fuel
  induction fuel with
  | zero => intro s; exact le_refl _
  | succ n ih =>
    intro s
    rw [fwdLoop]
    cases hbc : bestCandidate O "linear" sl s with
    | none => exact le_refl _
    | some b =>
      simp only
      repeat' split
      all_goals first
        | exact le_refl _
        | exact le_trans (ih _) (le_of_lt (by assumption))
        | exact le_trans (le_of_lt (by assumption)) (ih _)
        | simp_all

/-- C1: the claim says every call of the public `forwardSelection` /
`backwardSelection` completes and hands `varchar_process` to the encoding
step.  The code disagrees: the encoder's declared parameter is
`charvar_process` while both call sites pass the keyword `varchar_process`,
so every public call raises `TypeError` before any selection happens.  This
theorem evaluates the embedded calls at every input to that error. -/
theorem C1_public_calls_raise_type_error (O : Oracle) (X : RawFrame) (mt ec vp : String)
    (sl : ℚ) :
    forwardSelection O X mt ec vp sl =
      Except.error
        "TypeError: __varcharProcessing__() got an unexpected keyword argument varchar_process" ∧
    backwardSelection O X mt ec vp sl =
      Except.error
        "TypeError: __varcharProcessing__() got an unexpected keyword argument varchar_process" := by
  constructor <;>
    simp [forwardSelection, backwardSelection, bindEncoderPolicy, encoderCallKeyword,
      encoderParamName, Except.bind]

/-- C8: the `dummy_dropfirst` encoder places an all-ones `intercept` column
first, keeps numeric columns unchanged, expands each text column into one
0/1 indicator per level except the first, and on the spec's example
{a numeric, b numeric, c text with levels u,v} yields exactly
{intercept, a, b, c_v}. -/
theorem C8_dummy_dropfirst_encoding :
    (∀ X : RawFrame,
      (varcharProcessing X "dummy_dropfirst").head? =
        some ("intercept", List.replicate (numRows X) 1)) ∧
    (∀ (X : RawFrame) (name : String) (vs : List ℤ),
      (name, ColData.num vs) ∈ X → (name, vs) ∈ varcharProcessing X "dummy_dropfirst") ∧
    (∀ (name : String) (vs : List String),
      (dummyCols name vs true).length = (levels vs).length - 1) ∧
    (∀ (name : String) (vs : List String) (dropFirst : Bool) (p : String × List ℤ),
      p ∈ dummyCols name vs dropFirst → ∀ x ∈ p.2, x = 0 ∨ x = 1) ∧
    varcharProcessing exampleFrame "dummy_dropfirst" =
      [("intercept", [1, 1, 1]), ("a", [5, 7, 9]), ("b", [1, 2, 3]), ("c_v", [0, 1, 0])] := by
  refine ⟨?_, ?_, ?_, ?_, by decide⟩
  · intro X
    simp [varcharProcessing]
  · intro X name vs h
    have : (name, vs) ∈ numericCols X := by
      simp only [numericCols, List.mem_filterMap]
      exact ⟨(name, ColData.num vs), h, rfl⟩
    simp only [varcharProcessing, get_dummies]
    exact List.mem_cons_of_mem _ (List.mem_append_left _ this)
  · intro name vs
    simp [dummyCols]
  · intro name vs dropFirst p hp x hx
    simp only [dummyCols, List.mem_map] at hp
    obtain ⟨l, _, rfl⟩ := hp
    simp only [indicator, List.mem_map] at hx
    obtain ⟨v, _, rfl⟩ := hx
    by_cases h : v = l <;> simp [h]

/-- Witness for C8: the numeric column `a` of the example frame survives
encoding unchanged. -/
theorem C8_dummy_dropfirst_encoding_witness :
    (("a" : String), ([5, 7, 9] : List ℤ)) ∈ varcharProcessing exampleFrame "dummy_dropfirst" :=
  C8_dummy_dropfirst_encoding.2.1 exampleFrame "a" [5, 7, 9] (by decide)

/-- Counterexample to C2: backward selection does not protect the intercept.
With a full fit in which `intercept` holds the maximum p-value 900 > sl = 50
while `a` is significant, round 0 eliminates `intercept`, and the returned
column list is `["a"]`. -/
theorem C2_counterexample :
    "intercept" ∉
      (backwardSelectionRaw oracleInterceptWorst ["intercept", "a"] "linear" "None" 50).1 := by
  decide

/-- Counterexample to C3: at the regain stop the returned column list is the
pre-elimination set, which still CONTAINS the just-eliminated variable —
the claim says it is excluded.  Here round 0 eliminates `a` (p-value
900 > 50), the refit has worse AIC (20 > 10), the log reports `a` regained,
and the returned list is `["intercept", "a"]`. -/
theorem C3_counterexample :
    LogEvent.regained "a" ∈
        (backwardSelectionRaw oracleRegain ["intercept", "a"] "linear" "aic" 50).2 ∧
      "a" ∈ (backwardSelectionRaw oracleRegain ["intercept", "a"] "linear" "aic" 50).1 := by
  decide

/-- Counterexample to C6: with `a` and `b` tied at the maximum p-value
900 > sl = 50 in the full fit, round 0 of backward selection deletes BOTH,
leaving only the intercept — more than one column removed in a single
round. -/
theorem C6_counterexample :
    (bwdInit ["intercept", "a", "b"]).xcols.length = 3 ∧
      (bwdRound oracleTied "linear" "None" 50 0 (bwdInit ["intercept", "a", "b"])).xcols =
        ["intercept"] := by
  decide

/-- Counterexample to C7: when every candidate p-value (900) exceeds
sl = 50 on round 1, forward selection returns `["intercept"]` but the
returned iteration log is EMPTY — the "no variable entered" notice goes to
stdout only, so the log notes nothing. -/
theorem C7_counterexample :
    forwardSelectionRaw oracleAllInsignificant ["intercept", "a"] "linear" "aic" 50 =
      (["intercept"], []) := by
  decide

/-- Counterexample to C9: with `elimination_criteria = "r2"` an unrecognized
`model_type` does NOT select the same columns as `"linear"`: the r2 gate
tests the outer `model_type` string, so it is bypassed.  Under `"linear"`
the gate rejects `a` (R² 400 < 500) and only the intercept is returned;
under `"spam"` every significant candidate is added. -/
theorem C9_counterexample :
    (forwardSelectionRaw oracleR2Gate ["intercept", "a", "b"] "spam" "r2" 50).1 ≠
      (forwardSelectionRaw oracleR2Gate ["intercept", "a", "b"] "linear" "r2" 50).1 := by
  decide

/-- C2 (amended): forward selection always returns a column list containing
`intercept` (it starts from {intercept} and only appends).  Backward
selection does NOT protect the intercept — see the counterexample. -/
theorem C2_forward_intercept_permanent (O : Oracle) (cols : List String) (mt ec : String)
    (sl : ℚ) :
    "intercept" ∈ (forwardSelectionRaw O cols mt ec sl).1 :=
  fwd_selected_mono O mt ec sl cols.length (fwdInit O cols mt ec) "intercept"
    (List.mem_cons_self _ _)

/-- C4: with the `aic`/`bic` gate the candidate is added only on a strict
decrease of the criterion, with `r2`/`adjr2` under the linear model only on
a strict increase, and whenever a gate fails its strict test
(`gateRejects` spells out the failure for each of the four gates) the loop
stops with the selected set unchanged; consequently the stored criterion
value is non-increasing across rounds for `aic`/`bic` and non-decreasing
for `r2`/`adjr2` under the linear model. -/
theorem C4_forward_criterion_gate (O : Oracle) (mt : String) (sl : ℚ) (fuel : Nat)
    (s : FwdState) :
    ((fwdLoop O mt "aic" sl fuel s).criteria ≤ s.criteria ∧
      (fwdLoop O mt "bic" sl fuel s).criteria ≤ s.criteria) ∧
    (s.criteria ≤ (fwdLoop O "linear" "r2" sl fuel s).criteria ∧
      s.criteria ≤ (fwdLoop O "linear" "adjr2" sl fuel s).criteria) ∧
    (∀ (ec : String) (b : String × ℚ), bestCandidate O mt sl s = some b →
      gateRejects O mt ec s b.1 →
      (fwdLoop O mt ec sl (fuel + 1) s).selected = s.selected) := by
  refine ⟨⟨fwd_criteria_aic O mt sl fuel s, fwd_criteria_bic O mt sl fuel s⟩,
    ⟨fwd_criteria_r2 O sl fuel s, fwd_criteria_adjr2 O sl fuel s⟩, ?_⟩
  intro ec b hbc hrej
  rw [fwdLoop_gate_reject O mt ec sl fuel s b hbc hrej]

/-- Witness for C4 at a concrete run: constant AIC 10, candidate `a`
significant; the gate rejects and the selected set stays {intercept}. -/
theorem C4_forward_criterion_gate_witness :
    (fwdLoop oracleAicFlat "linear" "aic" 50 3
        (fwdInit oracleAicFlat ["intercept", "a"] "linear" "aic")).criteria ≤
      (fwdInit oracleAicFlat ["intercept", "a"] "linear" "aic").criteria ∧
    (fwdLoop oracleAicFlat "linear" "aic" 50 3
        (fwdInit oracleAicFlat ["intercept", "a"] "linear" "aic")).selected =
      (fwdInit oracleAicFlat ["intercept", "a"] "linear" "aic").selected := by
  have h := C4_forward_criterion_gate oracleAicFlat "linear" 50 2
    (fwdInit oracleAicFlat ["intercept", "a"] "linear" "aic")
  exact ⟨h.1.1, h.2.2 "aic" ("a", 10) (by decide) (Or.inl ⟨rfl, by decide⟩)⟩

/-- C5: every column forward selection returns, other than `intercept`, had
p-value ≤ sl in the candidate-evaluation fit of the round that added it
(the fit of the then-selected set plus the candidate). -/
theorem C5_forward_significance_filter (O : Oracle) (cols : List String) (mt ec : String)
    (sl : ℚ) (v : String) (hv : v ∈ (forwardSelectionRaw O cols mt ec sl).1) :
    v = "intercept" ∨
      ∃ S : List String, (regressor O mt (S ++ [v])).pvalues v ≤ sl := by
  rcases fwd_selected_sound O mt ec sl cols.length (fwdInit O cols mt ec) v hv with h | h
  · left
    simpa [fwdInit] using h
  · exact Or.inr h

/-- Witness for C5: in a concrete gate-free run that adds `a`, the added
column satisfies the significance guarantee. -/
theorem C5_forward_significance_filter_witness :
    "a" = "intercept" ∨
      ∃ S : List String, (regressor oracleR2Gate "linear" (S ++ ["a"])).pvalues "a" ≤ 50 :=
  C5_forward_significance_filter oracleR2Gate ["intercept", "a", "b"] "linear" "None" 50 "a"
    (by decide)

/-- C10: the entry block is logged before the criterion gate is evaluated,
so when the gate rejects the candidate and the loop stops, the returned log
announces the entry of a variable that is absent from the returned selected
columns. -/
theorem C10_rejected_entry_still_logged (O : Oracle) (mt ec : String) (sl : ℚ) (fuel : Nat)
    (s : FwdState) (b : String × ℚ) (hbc : bestCandidate O mt sl s = some b)
    (hrej : gateRejects O mt ec s b.1) (hnew : b.1 ∉ s.selected) :
    LogEvent.entered b.1 ∈ (fwdLoop O mt ec sl (fuel + 1) s).log ∧
      b.1 ∉ (fwdLoop O mt ec sl (fuel + 1) s).selected := by
  rw [fwdLoop_gate_reject O mt ec sl fuel s b hbc hrej]
  exact ⟨by simp, hnew⟩

/-- Witness for C10: the concrete r2-gate run logs `Entered : a` yet returns
a selected set without `a`. -/
theorem C10_rejected_entry_still_logged_witness :
    LogEvent.entered "a" ∈
        (fwdLoop oracleR2Gate "linear" "r2" 50 3
          (fwdInit oracleR2Gate ["intercept", "a", "b"] "linear" "r2")).log ∧
      "a" ∉
        (fwdLoop oracleR2Gate "linear" "r2" 50 3
          (fwdInit oracleR2Gate ["intercept", "a", "b"] "linear" "r2")).selected :=
  C10_rejected_entry_still_logged oracleR2Gate "linear" "r2" 50 2
    (fwdInit oracleR2Gate ["intercept", "a", "b"] "linear" "r2") ("a", 10) (by decide)
    (by right; right; left; exact ⟨rfl, rfl, by decide⟩) (by decide)

/-- When no candidate exists, the loop returns its state unchanged. -/
lemma fwdLoop_no_candidate (O : Oracle) (mt ec : String) (sl : ℚ) (fuel : Nat) (s : FwdState)
    (h : bestCandidate O mt sl s = none) : fwdLoop O mt ec sl fuel s = s := by
  cases fuel with
  | zero => rfl
  | succ n => rw [fwdLoop, h]

/-- If every remaining candidate's p-value exceeds sl, the significance
filter leaves nothing and there is no best candidate. -/
lemma bestCandidate_none_of_insignificant (O : Oracle) (mt : String) (sl : ℚ) (s : FwdState)
    (h : ∀ j ∈ s.others, (regressor O mt (s.selected ++ [j])).pvalues j > sl) :
    bestCandidate O mt sl s = none := by
  unfold bestCandidate
  rw [List.head?_eq_none_iff]
  rw [List.filter_eq_nil_iff]
  intro x hx
  rw [List.mem_insertionSort] at hx
  simp only [candidatePvals, List.mem_map] at hx
  obtain ⟨j, hj, rfl⟩ := hx
  simpa using not_le_of_lt (h j hj)

/-- C7 (amended): if on round 1 every candidate's p-value exceeds sl,
forward selection returns exactly `(["intercept"], empty log)`: the
"Break : Significance Level" notice is printed to stdout only, so the
returned iteration log carries no note of it. -/
theorem C7_first_round_insignificant (O : Oracle) (cols : List String) (mt ec : String)
    (sl : ℚ)
    (h : ∀ j ∈ cols.erase "intercept",
      (regressor O mt (["intercept"] ++ [j])).pvalues j > sl) :
    forwardSelectionRaw O cols mt ec sl = (["intercept"], []) := by
  unfold forwardSelectionRaw
  rw [fwdLoop_no_candidate O mt ec sl cols.length (fwdInit O cols mt ec)
    (bestCandidate_none_of_insignificant O mt sl _ h)]
  rfl

/-- Witness for C7 at the all-insignificant oracle. -/
theorem C7_first_round_insignificant_witness :
    forwardSelectionRaw oracleAllInsignificant ["intercept", "a"] "linear" "aic" 50 =
      (["intercept"], []) :=
  C7_first_round_insignificant oracleAllInsignificant ["intercept", "a"] "linear" "aic" 50
    (by decide)

/-! Helper lemmas about the backward loop. -/

/-- The maximum p-value over a nonempty column list is attained. -/
lemma maxPvalOf_mem (f : FitResult) :
    ∀ cs : List String, cs ≠ [] → ∃ j ∈ cs, f.pvalues j = maxPvalOf f cs := by
  have aux : ∀ (t : List String) (m : ℚ),
      t.foldl (fun m j => max m (f.pvalues j)) m = m ∨
        ∃ j ∈ t, t.foldl (fun m j => max m (f.pvalues j)) m = f.pvalues j := by
    intro t
    induction t with
    | nil => intro m; exact Or.inl rfl
    | cons x xs ih =>
      intro m
      simp only [List.foldl_cons]
      rcases ih (max m (f.pvalues x)) with h | ⟨j, hj, h⟩
      · rcases max_choice m (f.pvalues x) with hm | hm
        · exact Or.inl (by rw [h, hm])
        · exact Or.inr ⟨x, List.mem_cons_self _ _, by rw [h, hm]⟩
      · exact Or.inr ⟨j, List.mem_cons_of_mem _ hj, h⟩
  intro cs hcs
  cases cs with
  | nil => exact absurd rfl hcs
  | cons x t =>
    rcases aux t (f.pvalues x) with h | ⟨j, hj, h⟩
    · exact ⟨x, List.mem_cons_self _ _, by rw [maxPvalOf, h]⟩
    · exact ⟨j, List.mem_cons_of_mem _ hj, by rw [maxPvalOf, h]⟩

/-- Folding "keep the newest" over a nonempty list lands in the list. -/
lemma foldl_last_mem : ∀ (l : List String) (a : String), l ≠ [] →
    l.foldl (fun _ j => j) a ∈ l := by
  intro l
  induction l with
  | nil => intro a h; exact absurd rfl h
  | cons x xs ih =>
    intro a _
    simp only [List.foldl_cons]
    by_cases hxs : xs = []
    · subst hxs; simp
    · exact List.mem_cons_of_mem _ (ih x hxs)

/-- The elimination step always snapshots `cols` to the pre-deletion column
list. -/
lemma bwdEliminate_cols (f : FitResult) (sl : ℚ) (s : BwdState) :
    (bwdEliminate f sl s).cols = s.xcols := by
  unfold bwdEliminate
  split <;> rfl

/-- The elimination step never logs a regain note. -/
lemma bwdEliminate_no_regain (f : FitResult) (sl : ℚ) (s : BwdState)
    (h : ∀ v, LogEvent.regained v ∉ s.log) :
    ∀ v, LogEvent.regained v ∉ (bwdEliminate f sl s).log := by
  intro v
  unfold bwdEliminate
  split
  · intro hv
    simp only [List.mem_append, List.mem_map] at hv
    rcases hv with hv | ⟨j, _, hj⟩
    · exact h v hv
    · cases hj
  · exact h v

/-- If the elimination step does not stop the loop, its updated
`last_eleminated` is a member of the snapshot `cols`. -/
lemma bwdEliminate_lastElim_mem (f : FitResult) (sl : ℚ) (s : BwdState) (hsl : 0 ≤ sl)
    (hd : (bwdEliminate f sl s).done = false) :
    (bwdEliminate f sl s).lastElim ∈ (bwdEliminate f sl s).cols := by
  revert hd
  unfold bwdEliminate
  split
  · rename_i hmp
    intro _
    have hx : s.xcols ≠ [] := by
      intro hnil
      rw [hnil] at hmp
      exact absurd (lt_of_le_of_lt hsl hmp) (lt_irrefl 0)
    obtain ⟨j, hj, hpj⟩ := maxPvalOf_mem f s.xcols hx
    have hties : s.xcols.filter
        (fun j => decide (f.pvalues j = maxPvalOf f s.xcols)) ≠ [] := by
      apply List.ne_nil_of_mem (a := j)
      rw [List.mem_filter]
      exact ⟨hj, by simpa using hpj⟩
    simp only
    exact List.mem_of_mem_filter (foldl_last_mem _ _ hties)
  · intro hd
    simp at hd

/-- The invariant holds after a gate-break round. -/
lemma bwdInv_break (i : Nat) (s : BwdState) (cs : List String)
    (h1 : ∀ v, LogEvent.regained v ∉ s.log) (h3 : s.lastElim ∈ s.cols) :
    BwdInv (i + 1)
      { s with done := true,
               log := s.log ++ [LogEvent.summary cs, LogEvent.regained s.lastElim] } := by
  refine ⟨?_, ?_, ?_⟩
  · intro hd
    simp at hd
  · intro v hv
    simp only [List.mem_append, List.mem_cons, List.not_mem_nil, or_false] at hv
    rcases hv with hv | hv | hv
    · exact absurd hv (h1 v)
    · cases hv
    · injection hv with h
      subst h
      exact h3
  · intro hd
    simp at hd

/-- The invariant holds after an accepted (elimination) round, whatever the
loop index: the freshly updated `last_eleminated` lies in the fresh
snapshot. -/
lemma bwdInv_accept (f : FitResult) (sl : ℚ) (hsl : 0 ≤ sl) (i : Nat) (t : BwdState)
    (hlog : ∀ v, LogEvent.regained v ∉ t.log) :
    BwdInv i (bwdEliminate f sl t) := by
  have hnr2 := bwdEliminate_no_regain f sl t hlog
  exact ⟨fun _ => hnr2, fun v hv => absurd hv (hnr2 v),
    fun hd _ => bwdEliminate_lastElim_mem f sl t hsl hd⟩

/-- One round of the backward loop preserves the invariant. -/
lemma bwdRound_inv (O : Oracle) (mt ec : String) (sl : ℚ) (hsl : 0 ≤ sl) (i : Nat)
    (s : BwdState) (h : BwdInv i s) : BwdInv (i + 1) (bwdRound O mt ec sl i s) := by
  obtain ⟨h1, h2, h3⟩ := h
  unfold bwdRound
  by_cases hdone : s.done = true
  · rw [if_pos hdone]
    exact ⟨fun hd => absurd (hd ▸ hdone) (by simp), h2,
      fun hd _ => absurd (hd ▸ hdone) (by simp)⟩
  · have hdf : s.done = false := by simpa using hdone
    rw [if_neg hdone]
    have hlog : ∀ cs : List String, ∀ v,
        LogEvent.regained v ∉ s.log ++ [LogEvent.summary cs] := by
      intro cs v hv
      simp only [List.mem_append, List.mem_cons, List.not_mem_nil, or_false] at hv
      rcases hv with hv | hv
      · exact absurd hv (h1 hdf v)
      · cases hv
    by_cases hi : i = 0
    · rw [if_pos hi]
      exact bwdInv_accept _ sl hsl _ _ (hlog s.xcols)
    · rw [if_neg hi]
      repeat' split
      all_goals first
        | exact bwdInv_break i s _ (h1 hdf) (h3 hdf hi)
        | exact bwdInv_accept _ sl hsl _ _ (hlog s.xcols)

/-- The backward loop preserves the invariant. -/
lemma bwdLoop_inv (O : Oracle) (mt ec : String) (sl : ℚ) (hsl : 0 ≤ sl) :
    ∀ (fuel i : Nat) (s : BwdState), BwdInv i s →
      ∃ k, BwdInv k (bwdLoop O mt ec sl fuel i s) := by
  intro fuel
  induction fuel with
  | zero => intro i s h; exact ⟨i, h⟩
  | succ n ih =>
    intro i s h
    exact ih (i + 1) _ (bwdRound_inv O mt ec sl hsl i s h)

/-- C3 (amended): when backward selection stops because the refit after an
elimination is worse, the log reports the last-eliminated variable as
regained and the returned column list is the PRE-elimination snapshot, so it
still contains that variable (the claim said it is excluded). -/
theorem C3_regained_variable_in_returned_columns (O : Oracle) (cols0 : List String)
    (mt ec : String) (sl : ℚ) (hsl : 0 ≤ sl) (v : String)
    (hv : LogEvent.regained v ∈ (backwardSelectionRaw O cols0 mt ec sl).2) :
    v ∈ (backwardSelectionRaw O cols0 mt ec sl).1 := by
  have hinit : BwdInv 0 (bwdInit cols0) := by
    refine ⟨?_, ?_, ?_⟩
    · intro _ v hv
      simp [bwdInit] at hv
    · intro v hv
      simp [bwdInit] at hv
    · intro _ hi
      exact absurd rfl hi
  obtain ⟨k, hinv⟩ := bwdLoop_inv O mt ec sl hsl cols0.length 0 (bwdInit cols0) hinit
  unfold backwardSelectionRaw at hv ⊢
  simp only [List.mem_append, List.mem_cons, List.not_mem_nil, or_false] at hv
  rcases hv with hv | hv
  · exact hinv.2.1 v hv
  · cases hv

/-- Witness for C3: the concrete regain run returns `a` inside the column
list. -/
theorem C3_regained_variable_in_returned_columns_witness :
    "a" ∈ (backwardSelectionRaw oracleRegain ["intercept", "a"] "linear" "aic" 50).1 :=
  C3_regained_variable_in_returned_columns oracleRegain ["intercept", "a"] "linear" "aic" 50
    (by decide) "a" (by decide)

/-- Membership after one elimination step: a retained column survives iff it
does not attain a maximum p-value exceeding sl.  In particular every tied
column is removed, not just one. -/
lemma bwdEliminate_mem_xcols (f : FitResult) (sl : ℚ) (s : BwdState) (j : String)
    (hj : j ∈ s.xcols) :
    j ∈ (bwdEliminate f sl s).xcols ↔
      ¬ (maxPvalOf f s.xcols > sl ∧ f.pvalues j = maxPvalOf f s.xcols) := by
  unfold bwdEliminate
  split
  · rename_i hmp
    simp [List.mem_filter, hj, hmp]
  · rename_i hmp
    simp [hj, hmp]

/-- One elimination step turns removed columns into elimination notes
one-for-one: the count of elimination notes plus the number of retained
columns is preserved. -/
lemma bwdEliminate_count (f : FitResult) (sl : ℚ) (s : BwdState) :
    countElim (bwdEliminate f sl s).log + (bwdEliminate f sl s).xcols.length =
      countElim s.log + s.xcols.length := by
  unfold bwdEliminate
  split
  · simp only [countElim, List.countP_append]
    rw [List.countP_map]
    have hall : (s.xcols.filter
        (fun j => decide (f.pvalues j = maxPvalOf f s.xcols))).countP
          (isElimEvent ∘ fun j => LogEvent.eliminated j) =
        (s.xcols.filter (fun j => decide (f.pvalues j = maxPvalOf f s.xcols))).length := by
      apply List.countP_eq_length.mpr
      intro a _
      rfl
    rw [hall]
    have hsplit : s.xcols.length =
        (s.xcols.filter (fun j => decide (f.pvalues j = maxPvalOf f s.xcols))).length +
          (s.xcols.filter (fun j => ! decide (f.pvalues j = maxPvalOf f s.xcols))).length :=
      List.length_eq_length_filter_add _
    have hnot : s.xcols.filter (fun j => decide (¬ f.pvalues j = maxPvalOf f s.xcols)) =
        s.xcols.filter (fun j => ! decide (f.pvalues j = maxPvalOf f s.xcols)) := by
      apply List.filter_congr
      intro a _
      simp
    rw [hnot]
    omega
  · rfl

/-- A backward round preserves (elimination notes + retained columns). -/
lemma bwdRound_count (O : Oracle) (mt ec : String) (sl : ℚ) (i : Nat) (s : BwdState) :
    countElim (bwdRound O mt ec sl i s).log + (bwdRound O mt ec sl i s).xcols.length =
      countElim s.log + s.xcols.length := by
  unfold bwdRound
  repeat' split
  all_goals first
    | rfl
    | (rw [bwdEliminate_count]
       simp [countElim, List.countP_append, isElimEvent])
    | simp [countElim, List.countP_append, isElimEvent]

/-- The whole backward loop preserves (elimination notes + retained
columns). -/
lemma bwdLoop_count (O : Oracle) (mt ec : String) (sl : ℚ) :
    ∀ (fuel i : Nat) (s : BwdState),
      countElim (bwdLoop O mt ec sl fuel i s).log +
          (bwdLoop O mt ec sl fuel i s).xcols.length =
        countElim s.log + s.xcols.length := by
  intro fuel
  induction fuel with
  | zero => intro i s; rfl
  | succ n ih =>
    intro i s
    rw [bwdLoop]
    rw [ih (i + 1) (bwdRound O mt ec sl i s)]
    exact bwdRound_count O mt ec sl i s

/-- C6 (amended): in each backward round the columns removed are exactly
those attaining the maximum p-value when it exceeds sl — at most one only
when the maximum is uniquely attained, and all tied columns otherwise — and
over the whole run the number of eliminations (hence of removed columns)
never exceeds the initial column count; the loop itself runs
`range(X.shape[1])`, i.e. at most the initial column count rounds. -/
theorem C6_backward_elimination_shape (O : Oracle) (cols0 : List String) (mt ec : String)
    (sl : ℚ) :
    (∀ (f : FitResult) (sig : ℚ) (s : BwdState) (j : String), j ∈ s.xcols →
      (j ∈ (bwdEliminate f sig s).xcols ↔
        ¬ (maxPvalOf f s.xcols > sig ∧ f.pvalues j = maxPvalOf f s.xcols))) ∧
    countElim (backwardSelectionRaw O cols0 mt ec sl).2 ≤ cols0.length := by
  constructor
  · exact fun f sig s j hj => bwdEliminate_mem_xcols f sig s j hj
  · unfold backwardSelectionRaw
    have hc := bwdLoop_count O mt ec sl cols0.length 0 (bwdInit cols0)
    have hinit1 : countElim (bwdInit cols0).log = 0 := rfl
    have hinit2 : (bwdInit cols0).xcols.length = cols0.length := rfl
    rw [hinit1, hinit2] at hc
    simp only [countElim, List.countP_append] at hc ⊢
    have hone : List.countP isElimEvent [LogEvent.summary
        (bwdLoop O mt ec sl cols0.length 0 (bwdInit cols0)).modelCols] = 0 := rfl
    rw [hone]
    omega

/-- Witness for C6: in the tied run both `a` and `b` are removed by round 0
(neither survives), and the total elimination count is bounded by 3. -/
theorem C6_backward_elimination_shape_witness :
    ¬ ("a" ∈ (bwdEliminate (fitTied ["intercept", "a", "b"]) 50
        (bwdInit ["intercept", "a", "b"])).xcols) ∧
      countElim
        (backwardSelectionRaw oracleTied ["intercept", "a", "b"] "linear" "None" 50).2 ≤ 3 := by
  have h := C6_backward_elimination_shape oracleTied ["intercept", "a", "b"] "linear" "None" 50
  constructor
  · rw [h.1 (fitTied ["intercept", "a", "b"]) 50 (bwdInit ["intercept", "a", "b"]) "a"
      (by decide)]
    decide
  · exact h.2

/-- An unrecognized model type falls through to the OLS branch of the
`regressor` closure. -/
lemma regressor_unrecognized (O : Oracle) (mt : String) (h1 : mt ≠ "linear")
    (h2 : mt ≠ "logistic") (cols : List String) : regressor O mt cols = O.ols cols := by
  unfold regressor
  rw [if_neg h1, if_neg h2]

/-- Two gate-free criterion strings drive the forward loop identically. -/
lemma fwdLoop_gateFree (O : Oracle) (mt ec ec' : String) (sl : ℚ)
    (h : gateFree ec mt) (h' : gateFree ec' mt) :
    ∀ (fuel : Nat) (s : FwdState), fwdLoop O mt ec sl fuel s = fwdLoop O mt ec' sl fuel s := by
  obtain ⟨h1, h2, h3, h4⟩ := h
  obtain ⟨h1', h2', h3', h4'⟩ := h'
  intro fuel
  induction fuel with
  | zero => intro s; rfl
  | succ n ih =>
    intro s
    rw [fwdLoop, fwdLoop]
    cases hbc : bestCandidate O mt sl s with
    | none => rfl
    | some b =>
      simp only
      rw [if_neg h1, if_neg h2, if_neg h3, if_neg h4,
        if_neg h1', if_neg h2', if_neg h3', if_neg h4']
      exact ih _

/-- Two gate-free criterion strings give identical raw forward selections. -/
lemma forwardSelectionRaw_gateFree (O : Oracle) (cols0 : List String) (mt ec ec' : String)
    (sl : ℚ) (h : gateFree ec mt) (h' : gateFree ec' mt) :
    forwardSelectionRaw O cols0 mt ec sl = forwardSelectionRaw O cols0 mt ec' sl := by
  have hcrit : initCriteria ec mt (regressor O mt ["intercept"]) =
      initCriteria ec' mt (regressor O mt ["intercept"]) := by
    unfold initCriteria
    rw [if_neg h.1, if_neg h.2.1, if_neg h.2.2.1, if_neg h.2.2.2,
      if_neg h'.1, if_neg h'.2.1, if_neg h'.2.2.1, if_neg h'.2.2.2]
  unfold forwardSelectionRaw fwdInit
  simp only
  rw [hcrit, fwdLoop_gateFree O mt ec ec' sl h h']

/-- When the fitter closure agrees pointwise for two model-type strings and
the criterion is `aic` or `bic`, the forward loop agrees as well (the only
other way the loop reads the model type is through the `r2`/`adjr2`
branches, which `aic`/`bic` shadow). -/
lemma fwdLoop_regressor_congr (O : Oracle) (mt mt' : String) (sl : ℚ)
    (hr : ∀ cols, regressor O mt cols = regressor O mt' cols) (ec : String)
    (hec : ec = "aic" ∨ ec = "bic") :
    ∀ (fuel : Nat) (s : FwdState), fwdLoop O mt ec sl fuel s = fwdLoop O mt' ec sl fuel s := by
  have hbc : ∀ s : FwdState, bestCandidate O mt sl s = bestCandidate O mt' sl s := by
    intro s
    unfold bestCandidate candidatePvals
    simp only [hr]
  intro fuel
  induction fuel with
  | zero => intro s; rfl
  | succ n ih =>
    intro s
    rw [fwdLoop, fwdLoop, hbc s]
    cases hc : bestCandidate O mt' sl s with
    | none => rfl
    | some b =>
      rcases hec with he | he <;> subst he <;>
        simp only [hr] <;>
        split_ifs <;>
        first
          | rfl
          | exact ih _

/-- Under an unrecognized model type, forward selection with the `aic` or
`bic` gate returns exactly what it returns under `linear`. -/
lemma forwardSelectionRaw_aicbic_linear (O : Oracle) (cols0 : List String) (mt : String)
    (sl : ℚ) (h1 : mt ≠ "linear") (h2 : mt ≠ "logistic") (ec : String)
    (hec : ec = "aic" ∨ ec = "bic") :
    forwardSelectionRaw O cols0 mt ec sl = forwardSelectionRaw O cols0 "linear" ec sl := by
  have hr : ∀ cols, regressor O mt cols = regressor O "linear" cols := by
    intro cols
    rw [regressor_unrecognized O mt h1 h2 cols]
    unfold regressor
    rw [if_pos rfl]
  have hcrit : initCriteria ec mt (regressor O mt ["intercept"]) =
      initCriteria ec "linear" (regressor O "linear" ["intercept"]) := by
    rw [hr]
    rcases hec with he | he <;> subst he <;> simp [initCriteria]
  unfold forwardSelectionRaw fwdInit
  simp only
  rw [hcrit, fwdLoop_regressor_congr O mt "linear" sl hr ec hec]

/-- Two gate-free criterion strings drive a backward round identically. -/
lemma bwdRound_gateFree (O : Oracle) (mt ec ec' : String) (sl : ℚ) (i : Nat) (s : BwdState)
    (h : gateFree ec mt) (h' : gateFree ec' mt) :
    bwdRound O mt ec sl i s = bwdRound O mt ec' sl i s := by
  unfold bwdRound
  by_cases hdone : s.done = true
  · rw [if_pos hdone, if_pos hdone]
  · rw [if_neg hdone, if_neg hdone]
    by_cases hi : i = 0
    · rw [if_pos hi, if_pos hi]
    · rw [if_neg hi, if_neg hi,
        if_neg h.1, if_neg h.2.1, if_neg h.2.2.2, if_neg h.2.2.1,
        if_neg h'.1, if_neg h'.2.1, if_neg h'.2.2.2, if_neg h'.2.2.1]

/-- Two gate-free criterion strings give identical raw backward selections. -/
lemma backwardSelectionRaw_gateFree (O : Oracle) (cols0 : List String) (mt ec ec' : String)
    (sl : ℚ) (h : gateFree ec mt) (h' : gateFree ec' mt) :
    backwardSelectionRaw O cols0 mt ec sl = backwardSelectionRaw O cols0 mt ec' sl := by
  have hloop : ∀ (fuel i : Nat) (s : BwdState),
      bwdLoop O mt ec sl fuel i s = bwdLoop O mt ec' sl fuel i s := by
    intro fuel
    induction fuel with
    | zero => intro i s; rfl
    | succ n ih =>
      intro i s
      rw [bwdLoop, bwdLoop, bwdRound_gateFree O mt ec ec' sl i s h h']
      exact ih (i + 1) _
  unfold backwardSelectionRaw
  simp only
  rw [hloop]

/-- When the fitter closure agrees pointwise for two model-type strings and
the criterion is `aic` or `bic`, a backward round agrees as well (the only
other way the round reads the model type is through the `adjr2`/`r2`
branches, which `aic`/`bic` shadow). -/
lemma bwdRound_regressor_congr (O : Oracle) (mt mt' : String) (sl : ℚ)
    (hr : ∀ cols, regressor O mt cols = regressor O mt' cols) (ec : String)
    (hec : ec = "aic" ∨ ec = "bic") (i : Nat) (s : BwdState) :
    bwdRound O mt ec sl i s = bwdRound O mt' ec sl i s := by
  unfold bwdRound
  rcases hec with he | he <;> subst he <;>
    simp only [hr] <;>
    split_ifs <;>
    rfl

/-- Under an unrecognized model type, backward selection with the `aic` or
`bic` gate returns exactly what it returns under `linear`. -/
lemma backwardSelectionRaw_aicbic_linear (O : Oracle) (cols0 : List String) (mt : String)
    (sl : ℚ) (h1 : mt ≠ "linear") (h2 : mt ≠ "logistic") (ec : String)
    (hec : ec = "aic" ∨ ec = "bic") :
    backwardSelectionRaw O cols0 mt ec sl = backwardSelectionRaw O cols0 "linear" ec sl := by
  have hr : ∀ cols, regressor O mt cols = regressor O "linear" cols := by
    intro cols
    rw [regressor_unrecognized O mt h1 h2 cols]
    unfold regressor
    rw [if_pos rfl]
  have hloop : ∀ (fuel i : Nat) (s : BwdState),
      bwdLoop O mt ec sl fuel i s = bwdLoop O "linear" ec sl fuel i s := by
    intro fuel
    induction fuel with
    | zero => intro i s; rfl
    | succ n ih =>
      intro i s
      rw [bwdLoop, bwdLoop, bwdRound_regressor_congr O mt "linear" sl hr ec hec i s]
      exact ih (i + 1) _
  unfold backwardSelectionRaw
  simp only
  rw [hloop]

/-- C9 (amended): under an unrecognized model_type every fit is an OLS fit,
and with the `aic`/`bic` gates both forward and backward selection return
pairs identical to model_type="linear"; but the `r2`/`adjr2` gates test the
outer model_type string, so they are BYPASSED: forward and backward
selection behave exactly as with no criterion gate, which can differ from
model_type="linear" (see the counterexample). -/
theorem C9_unrecognized_model_type_behavior (O : Oracle) (cols0 : List String) (mt : String)
    (sl : ℚ) (h1 : mt ≠ "linear") (h2 : mt ≠ "logistic") :
    (∀ cols, regressor O mt cols = O.ols cols) ∧
    (forwardSelectionRaw O cols0 mt "aic" sl = forwardSelectionRaw O cols0 "linear" "aic" sl ∧
      forwardSelectionRaw O cols0 mt "bic" sl =
        forwardSelectionRaw O cols0 "linear" "bic" sl) ∧
    (forwardSelectionRaw O cols0 mt "r2" sl = forwardSelectionRaw O cols0 mt "None" sl ∧
      forwardSelectionRaw O cols0 mt "adjr2" sl =
        forwardSelectionRaw O cols0 mt "None" sl) ∧
    (backwardSelectionRaw O cols0 mt "r2" sl = backwardSelectionRaw O cols0 mt "None" sl ∧
      backwardSelectionRaw O cols0 mt "adjr2" sl =
        backwardSelectionRaw O cols0 mt "None" sl) ∧
    (backwardSelectionRaw O cols0 mt "aic" sl =
        backwardSelectionRaw O cols0 "linear" "aic" sl ∧
      backwardSelectionRaw O cols0 mt "bic" sl =
        backwardSelectionRaw O cols0 "linear" "bic" sl) := by
  have hgr2 : gateFree "r2" mt :=
    ⟨by decide, by decide, fun hc => h1 hc.2, fun hc => absurd hc.1 (by decide)⟩
  have hgadj : gateFree "adjr2" mt :=
    ⟨by decide, by decide, fun hc => absurd hc.1 (by decide), fun hc => h1 hc.2⟩
  have hgnone : gateFree "None" mt :=
    ⟨by decide, by decide, fun hc => absurd hc.1 (by decide),
      fun hc => absurd hc.1 (by decide)⟩
  refine ⟨regressor_unrecognized O mt h1 h2, ⟨?_, ?_⟩, ⟨?_, ?_⟩, ⟨?_, ?_⟩, ⟨?_, ?_⟩⟩
  · exact forwardSelectionRaw_aicbic_linear O cols0 mt sl h1 h2 "aic" (Or.inl rfl)
  · exact forwardSelectionRaw_aicbic_linear O cols0 mt sl h1 h2 "bic" (Or.inr rfl)
  · exact forwardSelectionRaw_gateFree O cols0 mt "r2" "None" sl hgr2 hgnone
  · exact forwardSelectionRaw_gateFree O cols0 mt "adjr2" "None" sl hgadj hgnone
  · exact backwardSelectionRaw_gateFree O cols0 mt "r2" "None" sl hgr2 hgnone
  · exact backwardSelectionRaw_gateFree O cols0 mt "adjr2" "None" sl hgadj hgnone
  · exact backwardSelectionRaw_aicbic_linear O cols0 mt sl h1 h2 "aic" (Or.inl rfl)
  · exact backwardSelectionRaw_aicbic_linear O cols0 mt sl h1 h2 "bic" (Or.inr rfl)

/-- Witness for C9 at the concrete r2-gate oracle and model_type "spam". -/
theorem C9_unrecognized_model_type_behavior_witness :
    regressor oracleR2Gate "spam" ["intercept"] = oracleR2Gate.ols ["intercept"] ∧
      forwardSelectionRaw oracleR2Gate ["intercept", "a", "b"] "spam" "r2" 50 =
        forwardSelectionRaw oracleR2Gate ["intercept", "a", "b"] "spam" "None" 50 := by
  have h := C9_unrecognized_model_type_behavior oracleR2Gate ["intercept", "a", "b"] "spam" 50
    (by decide) (by decide)
  exact ⟨h.1 ["intercept"], h.2.2.1.1⟩

end StepwiseSelection
